import Mathlib

/-!
Shallow embedding of `src/donut.py` (class `ASCIIDonut`).

Conventions of the embedding:
* Python floats are modelled as exact rationals (`ℚ`); decimal literals of the
  source denote the corresponding rational, and `math.pi` denotes the decimal
  value `3.141592653589793` printed for the double constant.
* The two transcendental library functions `math.cos` and `math.sin` are an
  explicit parameter `fcos fsin : ℚ → ℚ` of the definitions that call them;
  none of the properties proved below depends on their actual values.
* Python `int(...)` applied to a float is truncation toward zero (`pyInt`).
* Python lists are `List`; the guarded element assignment
  `grid[y][x] = v` is `setCell`, the guarded read `grid[y][x]` is `getCell`.
  All reads and writes performed by the source are within bounds whenever the
  buffers have the advertised `height × width` shape (`WF` below).
* `ooz = 1 / z` uses the total field division of `ℚ` (value `0` at `z = 0`);
  the source would raise there, but no theorem below evaluates at `z = 0`.
-/

set_option maxRecDepth 20000

/-- Truncation toward zero: Python `int()` applied to a (rational-modelled)
float. A `ℚ` is stored in lowest terms with a positive denominator, so
t-division (`Int.tdiv`) of numerator by denominator truncates toward zero. -/
def pyInt (q : ℚ) : ℤ := Int.tdiv q.num (q.den : ℤ)

/-- `grid[y][x] = v` on a rectangular list-of-lists buffer (no-op out of range,
which the source never does on well-formed buffers). -/
def setCell {α : Type} (g : List (List α)) (y x : ℕ) (v : α) : List (List α) :=
  g.set y ((g.getD y []).set x v)

/-- `grid[y][x]` read with a default (the source only reads in bounds). -/
def getCell {α : Type} (g : List (List α)) (y x : ℕ) (d : α) : α :=
  (g.getD y []).getD x d

/-- The `classic` ramp `" .':!~;irsXA253hMHGS#9&@"` (24 characters;
`Char.ofNat 39` is the apostrophe). -/
def classicChars : List Char :=
  [' ', '.', Char.ofNat 39, ':', '!', '~', ';', 'i', 'r', 's', 'X', 'A',
   '2', '5', '3', 'h', 'M', 'H', 'G', 'S', '#', '9', '&', '@']

/-- The `minimal` ramp `" .-=+*#@"` (8 characters). -/
def minimalChars : List Char := [' ', '.', '-', '=', '+', '*', '#', '@']

/-- The `blocks` ramp (5 characters). -/
def blocksChars : List Char := [' ', '░', '▒', '▓', '█']

/-- The `dots` ramp (5 characters). -/
def dotsChars : List Char := [' ', '·', '∘', '○', '●']

/-- The instance state of `ASCIIDonut` (fields assigned in `__init__`;
`use_colors` is omitted: it feeds only the excluded presentation layer). -/
structure DonutState where
  width : ℤ
  height : ℤ
  R1 : ℚ
  R2 : ℚ
  K2 : ℚ
  K1 : ℚ
  luminance_chars : List Char
  theta_step : ℚ
  phi_step : ℚ
  chars : List Char
  A : ℚ
  B : ℚ
  A_speed : ℚ
  B_speed : ℚ
  output : List (List Char)
  zbuffer : List (List ℚ)
  deriving DecidableEq

/-- `ASCIIDonut.__init__(width, height)` (lines 8-41 of the source). -/
def mkDonut (width height : ℤ) : DonutState :=
  let R1 : ℚ := 1
  let R2 : ℚ := 2
  let K2 : ℚ := 5
  { width := width
    height := height
    R1 := R1
    R2 := R2
    K2 := K2
    K1 := (width : ℚ) * K2 * 3 / (8 * (R1 + R2))
    luminance_chars := classicChars
    theta_step := 0.07
    phi_step := 0.02
    chars := classicChars
    A := 0
    B := 0
    A_speed := 0.08
    B_speed := 0.03
    output := List.replicate height.toNat (List.replicate width.toNat ' ')
    zbuffer := List.replicate height.toNat (List.replicate width.toNat 0) }

/-- `ASCIIDonut.reset_buffers` (lines 76-81): the nested loops writing a blank
into every `output` cell and `0.0` into every `zbuffer` cell. -/
def reset_buffers (s : DonutState) : DonutState :=
  (List.range s.height.toNat).foldl (fun t y =>
    (List.range s.width.toNat).foldl (fun t2 x =>
      { t2 with output := setCell t2.output y x ' '
                zbuffer := setCell t2.zbuffer y x 0 }) t) s

/-- `ASCIIDonut.calculate_point` (lines 83-112), with the trigonometric
library functions passed as `fcos`/`fsin`. -/
def calculate_point (fcos fsin : ℚ → ℚ) (s : DonutState)
    (theta phi cosA sinA cosB sinB : ℚ) : ℤ × ℤ × ℚ × ℚ :=
  let costheta := fcos theta
  let sintheta := fsin theta
  let cosphi := fcos phi
  let sinphi := fsin phi
  let circlex := s.R2 + s.R1 * costheta
  let circley := s.R1 * sintheta
  let x := circlex * (cosB * cosphi + sinA * sinB * sinphi) - circley * cosA * sinB
  let y := circlex * (sinB * cosphi - sinA * cosB * sinphi) + circley * cosA * cosB
  let z := s.K2 + cosA * circlex * sinphi + circley * sinA
  let ooz := 1 / z
  let xp := pyInt ((s.width : ℚ) / 2 + s.K1 * ooz * x)
  let yp := pyInt ((s.height : ℚ) / 2 - s.K1 * ooz * y)
  let L1 := cosphi * costheta * sinB - cosA * costheta * sinphi - sinA * sintheta
            + cosB * (cosA * sintheta - costheta * sinA * sinphi)
  let luminance := max 0 (L1 * 0.8 + 0.2)
  (xp, yp, ooz, luminance)

/-- Lines 140-141: `char_index = int(luminance * (len(chars) - 1))` followed by
`max(0, min(len(chars) - 1, char_index))`. -/
def rampIndex (chars : List Char) (luminance : ℚ) : ℤ :=
  max 0 (min ((chars.length : ℤ) - 1) (pyInt (luminance * ((chars.length : ℚ) - 1))))

/-- Line 143's right-hand side: `self.chars[char_index]` for the clamped index. -/
def selectGlyph (chars : List Char) (luminance : ℚ) : Char :=
  chars.getD (rampIndex chars luminance).toNat ' '

/-- The loop body of `render_frame` (lines 133-143): bounds check, depth test,
and the conditional write of depth and glyph for one projected point
`(xp, yp, ooz, luminance)`. -/
def submitPoint (s : DonutState) (p : ℤ × ℤ × ℚ × ℚ) : DonutState :=
  let xp := p.1
  let yp := p.2.1
  let ooz := p.2.2.1
  let luminance := p.2.2.2
  if 0 ≤ xp ∧ xp < s.width ∧ 0 ≤ yp ∧ yp < s.height ∧
      getCell s.zbuffer yp.toNat xp.toNat 0 < ooz then
    { s with zbuffer := setCell s.zbuffer yp.toNat xp.toNat ooz
             output := setCell s.output yp.toNat xp.toNat (selectGlyph s.chars luminance) }
  else s

/-- The float constant `math.pi` (its printed decimal value, as a rational). -/
def mathPi : ℚ := 3.141592653589793

/-- `⌈q⌉` as a natural number (0 for non-positive `q`), written with `Int.tdiv`
so that it evaluates inside the kernel: for a positive rational `num/den`,
`⌈num/den⌉ = (num + den - 1) div den` with truncating division. -/
def ratCeilNat (q : ℚ) : ℕ := (Int.tdiv (q.num + (q.den : ℤ) - 1) (q.den : ℤ)).toNat

/-- The angle values visited by `theta = 0; while theta < bound: theta += step`
for a positive `step`: `i * step` for `i < ⌈bound / step⌉`, since the loop
runs exactly while `i * step < bound`. -/
def sweep (step bound : ℚ) : List ℚ :=
  (List.range (ratCeilNat (bound / step))).map (fun i => (i : ℚ) * step)

/-- `ASCIIDonut.render_frame` (lines 114-146): reset the buffers, fix the
rotation trig values, and submit every sampled surface point. -/
def render_frame (fcos fsin : ℚ → ℚ) (s : DonutState) : DonutState :=
  let s1 := reset_buffers s
  let cosA := fcos s1.A
  let sinA := fsin s1.A
  let cosB := fcos s1.B
  let sinB := fsin s1.B
  (sweep s1.theta_step (2 * mathPi)).foldl (fun t theta =>
    (sweep s1.phi_step (2 * mathPi)).foldl (fun t2 phi =>
      submitPoint t2 (calculate_point fcos fsin t2 theta phi cosA sinA cosB sinB)) t) s1

/-- The `color_chars` dictionary of `__init__` (lines 18-23); it is assigned
once and never mutated, so it is embedded as a fixed lookup. -/
def color_chars (style : String) : Option (List Char) :=
  if style = ("classic") then some classicChars
  else if style = ("minimal") then some minimalChars
  else if style = ("blocks") then some blocksChars
  else if style = ("dots") then some dotsChars
  else none

/-- `ASCIIDonut.set_style` (lines 181-186). -/
def set_style (s : DonutState) (style : String) : DonutState :=
  match color_chars style with
  | some cs => { s with chars := cs }
  | none => { s with chars := s.luminance_chars }

/-- The buffers have the advertised shape: `height` rows of `width` cells each.
This holds after construction and is preserved by every operation. -/
def WF (s : DonutState) : Prop :=
  s.output.length = s.height.toNat ∧ s.zbuffer.length = s.height.toNat ∧
  (∀ r ∈ s.output, r.length = s.width.toNat) ∧
  (∀ r ∈ s.zbuffer, r.length = s.width.toNat)

instance : DecidablePred WF := fun s => by unfold WF; infer_instance

/-- All fields other than the two frame buffers agree. -/
def FieldsEq (t u : DonutState) : Prop :=
  t.width = u.width ∧ t.height = u.height ∧ t.R1 = u.R1 ∧ t.R2 = u.R2 ∧
  t.K2 = u.K2 ∧ t.K1 = u.K1 ∧ t.luminance_chars = u.luminance_chars ∧
  t.theta_step = u.theta_step ∧ t.phi_step = u.phi_step ∧ t.chars = u.chars ∧
  t.A = u.A ∧ t.B = u.B ∧ t.A_speed = u.A_speed ∧ t.B_speed = u.B_speed

instance : ∀ t u, Decidable (FieldsEq t u) := fun t u => by unfold FieldsEq; infer_instance

/-- Agreement on everything `render_frame` reads to drive the geometry and the
depth test: all configuration fields, the angles, and the depth buffer — but
not the glyph grid and not the ramp. -/
def ZSim (t u : DonutState) : Prop :=
  t.width = u.width ∧ t.height = u.height ∧ t.R1 = u.R1 ∧ t.R2 = u.R2 ∧
  t.K2 = u.K2 ∧ t.K1 = u.K1 ∧ t.theta_step = u.theta_step ∧ t.phi_step = u.phi_step ∧
  t.A = u.A ∧ t.B = u.B ∧ t.zbuffer = u.zbuffer

/-- The buffer contents produced by the nested loops of `reset_buffers` on one
grid: write `v` at every `(y, x)` with `y < H`, `x < W`. -/
def clearGrid {α : Type} (H W : ℕ) (v : α) (g : List (List α)) : List (List α) :=
  (List.range H).foldl (fun g' y =>
    (List.range W).foldl (fun g'' x => setCell g'' y x v) g') g

/-- Floor of a rational, via floor division of numerator by denominator. -/
def ratFloor (q : ℚ) : ℤ := Int.fdiv q.num (q.den : ℤ)

/-- Modelled from the spec: the ramp index as the specification words it,
`index = round(luminance × (ramp_length − 1))`, clamped to the valid index
range. `round` is rendered here as `floor(x + 1/2)`; the comparison below does
not evaluate at a half-integer, where rounding conventions could differ. -/
def specRoundIndex (chars : List Char) (luminance : ℚ) : ℤ :=
  max 0 (min ((chars.length : ℤ) - 1)
    (ratFloor (luminance * ((chars.length : ℚ) - 1) + 1/2)))

/-- Modelled from the spec: "Misconfiguration (non-positive radii, non-positive
viewport dimensions ...) should fail fast at construction with a configuration
error". The radii are the fixed constants `R1 = 1.0`, `R2 = 2.0` of `__init__`
and cannot be misconfigured, so the guard concerns the viewport dimensions: a
compliant constructor produces no state for non-positive width or height. -/
def init_spec (width height : ℤ) : Option DonutState :=
  if 0 < width ∧ 0 < height then some (mkDonut width height) else none

/-! ### Generic lemmas about buffer reads and writes -/

theorem getD_set_self {α : Type} :
    ∀ (l : List α) (n : ℕ) (v d : α), n < l.length → (l.set n v).getD n d = v := by
  intro l
  induction l with
  | nil => intro n v d h; simp at h
  | cons a t ih =>
    intro n v d h
    cases n with
    | zero => rfl
    | succ m => simpa using ih m v d (by simpa using h)

theorem getD_mem {α : Type} :
    ∀ (l : List α) (n : ℕ) (d : α), n < l.length → l.getD n d ∈ l := by
  intro l
  induction l with
  | nil => intro n d h; simp at h
  | cons a t ih =>
    intro n d h
    cases n with
    | zero => simp
    | succ m => simpa using Or.inr (ih m d (by simpa using h))

theorem length_setCell {α : Type} (g : List (List α)) (y x : ℕ) (v : α) :
    (setCell g y x v).length = g.length := by
  simp [setCell]

theorem mem_setCell {α : Type} :
    ∀ (g : List (List α)) (y x : ℕ) (v : α) (r : List α), r ∈ setCell g y x v →
      r ∈ g ∨ (y < g.length ∧ r = (g.getD y []).set x v) := by
  intro g
  induction g with
  | nil => intro y x v r h; simp [setCell] at h
  | cons a t ih =>
    intro y x v r h
    cases y with
    | zero =>
      simp only [setCell, List.getD_cons_zero, List.set_cons_zero] at h
      rcases List.mem_cons.mp h with h1 | h1
      · exact Or.inr ⟨by simp, h1⟩
      · exact Or.inl (List.mem_cons_of_mem a h1)
    | succ m =>
      simp only [setCell, List.getD_cons_succ, List.set_cons_succ] at h
      rcases List.mem_cons.mp h with h1 | h1
      · exact Or.inl (h1 ▸ List.mem_cons_self a t)
      · rcases ih m x v r h1 with h2 | ⟨h2, h3⟩
        · exact Or.inl (List.mem_cons_of_mem a h2)
        · exact Or.inr ⟨by simpa using h2, by simpa using h3⟩

theorem rows_setCell {α : Type} (g : List (List α)) (y x : ℕ) (v : α) (w : ℕ)
    (hg : ∀ r ∈ g, r.length = w) : ∀ r ∈ setCell g y x v, r.length = w := by
  intro r hr
  rcases mem_setCell g y x v r hr with h | ⟨hy, hr'⟩
  · exact hg r h
  · rw [hr', List.length_set]
    exact hg _ (getD_mem g y [] hy)

theorem getCell_setCell_self {α : Type} (g : List (List α)) (y x : ℕ) (v d : α)
    (hy : y < g.length) (hx : x < (g.getD y []).length) :
    getCell (setCell g y x v) y x d = v := by
  unfold getCell setCell
  rw [getD_set_self g y _ [] hy, getD_set_self _ x v d (by simpa using hx)]

/-! ### Well-formedness and field preservation -/

theorem mkDonut_WF (w h : ℤ) : WF (mkDonut w h) := by
  refine ⟨by simp [mkDonut], by simp [mkDonut], ?_, ?_⟩ <;>
    · intro r hr
      simp only [mkDonut] at hr
      rw [List.eq_of_mem_replicate hr, List.length_replicate]
      rfl

theorem fieldsEq_refl (s : DonutState) : FieldsEq s s :=
  ⟨rfl, rfl, rfl, rfl, rfl, rfl, rfl, rfl, rfl, rfl, rfl, rfl, rfl, rfl⟩

theorem fieldsEq_trans {s t u : DonutState} (h1 : FieldsEq s t) (h2 : FieldsEq t u) :
    FieldsEq s u := by
  obtain ⟨a1, a2, a3, a4, a5, a6, a7, a8, a9, a10, a11, a12, a13, a14⟩ := h1
  obtain ⟨b1, b2, b3, b4, b5, b6, b7, b8, b9, b10, b11, b12, b13, b14⟩ := h2
  exact ⟨a1.trans b1, a2.trans b2, a3.trans b3, a4.trans b4, a5.trans b5, a6.trans b6,
    a7.trans b7, a8.trans b8, a9.trans b9, a10.trans b10, a11.trans b11, a12.trans b12,
    a13.trans b13, a14.trans b14⟩

theorem submit_pos (s : DonutState) (xp yp : ℤ) (ooz lum : ℚ)
    (h : 0 ≤ xp ∧ xp < s.width ∧ 0 ≤ yp ∧ yp < s.height ∧
      getCell s.zbuffer yp.toNat xp.toNat 0 < ooz) :
    submitPoint s (xp, yp, ooz, lum) =
      { s with zbuffer := setCell s.zbuffer yp.toNat xp.toNat ooz
               output := setCell s.output yp.toNat xp.toNat (selectGlyph s.chars lum) } := by
  simp only [submitPoint, if_pos h]

theorem submit_neg (s : DonutState) (xp yp : ℤ) (ooz lum : ℚ)
    (h : ¬(0 ≤ xp ∧ xp < s.width ∧ 0 ≤ yp ∧ yp < s.height ∧
      getCell s.zbuffer yp.toNat xp.toNat 0 < ooz)) :
    submitPoint s (xp, yp, ooz, lum) = s := by
  simp only [submitPoint, if_neg h]

theorem submit_fieldsEq (s : DonutState) (p : ℤ × ℤ × ℚ × ℚ) :
    FieldsEq (submitPoint s p) s := by
  simp only [submitPoint]
  split
  · exact ⟨rfl, rfl, rfl, rfl, rfl, rfl, rfl, rfl, rfl, rfl, rfl, rfl, rfl, rfl⟩
  · exact fieldsEq_refl s

theorem WF_submit (s : DonutState) (p : ℤ × ℤ × ℚ × ℚ) (h : WF s) : WF (submitPoint s p) := by
  obtain ⟨h1, h2, h3, h4⟩ := h
  simp only [submitPoint]
  split
  · exact ⟨by simpa [length_setCell] using h1, by simpa [length_setCell] using h2,
      rows_setCell _ _ _ _ _ h3, rows_setCell _ _ _ _ _ h4⟩
  · exact ⟨h1, h2, h3, h4⟩

/-! ### The reset loops clear the buffers to their construction state -/

theorem foldl_set_map_succ {α : Type} (v : α) :
    ∀ (l : List ℕ) (a : α) (t : List α),
      ((l.map Nat.succ).foldl (fun r x => r.set x v) (a :: t))
        = a :: l.foldl (fun r x => r.set x v) t := by
  intro l
  induction l with
  | nil => intro a t; rfl
  | cons x xs ih =>
    intro a t
    simp only [List.map_cons, List.foldl_cons, List.set_cons_succ]
    exact ih a (t.set x v)

theorem foldl_set_range_replicate {α : Type} (v : α) :
    ∀ (w : ℕ) (row : List α), row.length = w →
      (List.range w).foldl (fun r x => r.set x v) row = List.replicate w v := by
  intro w
  induction w with
  | zero =>
    intro row h
    rw [List.length_eq_zero] at h
    simp [h]
  | succ n ih =>
    intro row h
    cases row with
    | nil => simp at h
    | cons a t =>
      rw [List.range_succ_eq_map, List.foldl_cons, List.set_cons_zero,
        foldl_set_map_succ, ih t (by simpa using h), List.replicate_succ]

theorem setCell_cons_succ {α : Type} (a : List α) (g : List (List α)) (m x : ℕ) (v : α) :
    setCell (a :: g) (m + 1) x v = a :: setCell g m x v := by
  simp [setCell]

theorem setCell_cons_zero {α : Type} (a : List α) (g : List (List α)) (x : ℕ) (v : α) :
    setCell (a :: g) 0 x v = (a.set x v) :: g := by
  simp [setCell]

theorem foldl_setCell_cons {α : Type} (v : α) (y : ℕ) :
    ∀ (xl : List ℕ) (a : List α) (g : List (List α)),
      xl.foldl (fun g' x => setCell g' (y + 1) x v) (a :: g)
        = a :: xl.foldl (fun g' x => setCell g' y x v) g := by
  intro xl
  induction xl with
  | nil => intro a g; rfl
  | cons x xs ih =>
    intro a g
    simp only [List.foldl_cons, setCell_cons_succ]
    exact ih a (setCell g y x v)

theorem foldl_setCell_zero {α : Type} (v : α) :
    ∀ (xl : List ℕ) (a : List α) (g : List (List α)),
      xl.foldl (fun g' x => setCell g' 0 x v) (a :: g)
        = (xl.foldl (fun r x => r.set x v) a) :: g := by
  intro xl
  induction xl with
  | nil => intro a g; rfl
  | cons x xs ih =>
    intro a g
    simp only [List.foldl_cons, setCell_cons_zero]
    exact ih (a.set x v) g

theorem foldl_outer_cons {α : Type} (v : α) (W : ℕ) :
    ∀ (yl : List ℕ) (b : List α) (g : List (List α)),
      (yl.map Nat.succ).foldl (fun g' y =>
          (List.range W).foldl (fun g'' x => setCell g'' y x v) g') (b :: g)
        = b :: yl.foldl (fun g' y =>
            (List.range W).foldl (fun g'' x => setCell g'' y x v) g') g := by
  intro yl
  induction yl with
  | nil => intro b g; rfl
  | cons y ys ih =>
    intro b g
    simp only [List.map_cons, List.foldl_cons, foldl_setCell_cons]
    exact ih b _

theorem clearGrid_eq_replicate {α : Type} (v : α) :
    ∀ (H W : ℕ) (g : List (List α)), g.length = H → (∀ r ∈ g, r.length = W) →
      clearGrid H W v g = List.replicate H (List.replicate W v) := by
  intro H
  induction H with
  | zero =>
    intro W g hlen _
    rw [List.length_eq_zero] at hlen
    simp [clearGrid, hlen]
  | succ n ih =>
    intro W g hlen hrow
    cases g with
    | nil => simp at hlen
    | cons a t =>
      unfold clearGrid
      rw [List.range_succ_eq_map, List.foldl_cons, foldl_setCell_zero,
        foldl_set_range_replicate v W a (hrow a (List.mem_cons_self a t)),
        foldl_outer_cons, List.replicate_succ]
      exact congrArg _ (ih W t (by simpa using hlen)
        (fun r hr => hrow r (List.mem_cons_of_mem a hr)))

theorem foldl_update_two {ι : Type} (F : List (List Char) → ι → List (List Char))
    (G : List (List ℚ) → ι → List (List ℚ)) :
    ∀ (l : List ι) (t : DonutState),
      l.foldl (fun u i => { u with output := F u.output i, zbuffer := G u.zbuffer i }) t
        = { t with output := l.foldl F t.output, zbuffer := l.foldl G t.zbuffer } := by
  intro l
  induction l with
  | nil => intro t; rfl
  | cons i l ih =>
    intro t
    simp only [List.foldl_cons]
    exact ih _

theorem foldl_ext {β ι : Type} (f g : β → ι → β) (h : ∀ b i, f b i = g b i) (l : List ι)
    (t : β) : l.foldl f t = l.foldl g t := by
  have : f = g := funext fun b => funext fun i => h b i
  rw [this]

theorem reset_buffers_eq (s : DonutState) :
    reset_buffers s = { s with
      output := clearGrid s.height.toNat s.width.toNat ' ' s.output
      zbuffer := clearGrid s.height.toNat s.width.toNat 0 s.zbuffer } := by
  unfold reset_buffers clearGrid
  rw [foldl_ext _ (fun u y => { u with
        output := (List.range s.width.toNat).foldl (fun g'' x => setCell g'' y x ' ') u.output
        zbuffer := (List.range s.width.toNat).foldl (fun g'' x => setCell g'' y x 0) u.zbuffer })
      (fun u y => foldl_update_two _ _ _ u)]
  exact foldl_update_two
    (fun o y => (List.range s.width.toNat).foldl (fun g'' x => setCell g'' y x ' ') o)
    (fun z y => (List.range s.width.toNat).foldl (fun g'' x => setCell g'' y x 0) z)
    (List.range s.height.toNat) s

theorem reset_of_WF (s : DonutState) (h : WF s) :
    reset_buffers s = { s with
      output := List.replicate s.height.toNat (List.replicate s.width.toNat ' ')
      zbuffer := List.replicate s.height.toNat (List.replicate s.width.toNat 0) } := by
  obtain ⟨h1, h2, h3, h4⟩ := h
  rw [reset_buffers_eq, clearGrid_eq_replicate ' ' _ _ _ h1 h3,
    clearGrid_eq_replicate 0 _ _ _ h2 h4]

theorem reset_fieldsEq (s : DonutState) : FieldsEq (reset_buffers s) s := by
  rw [reset_buffers_eq]
  exact ⟨rfl, rfl, rfl, rfl, rfl, rfl, rfl, rfl, rfl, rfl, rfl, rfl, rfl, rfl⟩

theorem WF_reset (s : DonutState) (h : WF s) : WF (reset_buffers s) := by
  rw [reset_of_WF s h]
  refine ⟨by simp, by simp, ?_, ?_⟩ <;>
    · intro r hr
      simp only at hr
      rw [List.eq_of_mem_replicate hr, List.length_replicate]

/-! ### Fold invariants -/

theorem foldl_inv {β ι : Type} (f : β → ι → β) (P : β → Prop)
    (hf : ∀ t i, P t → P (f t i)) : ∀ (l : List ι) (t : β), P t → P (l.foldl f t) := by
  intro l
  induction l with
  | nil => intro t h; exact h
  | cons i l ih => intro t h; exact ih (f t i) (hf t i h)

theorem foldl_rel {β ι : Type} (f g : β → ι → β) (R : β → β → Prop)
    (hfg : ∀ t u i, R t u → R (f t i) (g u i)) :
    ∀ (l : List ι) (t u : β), R t u → R (l.foldl f t) (l.foldl g u) := by
  intro l
  induction l with
  | nil => intro t u h; exact h
  | cons i l ih => intro t u h; exact ih (f t i) (g u i) (hfg t u i h)

/-! ### State extensionality and render-level congruence -/

theorem donutState_ext (s t : DonutState) (hF : FieldsEq s t)
    (ho : s.output = t.output) (hz : s.zbuffer = t.zbuffer) : s = t := by
  cases s; cases t
  obtain ⟨h1, h2, h3, h4, h5, h6, h7, h8, h9, h10, h11, h12, h13, h14⟩ := hF
  dsimp only at h1 h2 h3 h4 h5 h6 h7 h8 h9 h10 h11 h12 h13 h14 ho hz
  subst_vars
  rfl

theorem reset_congr (s t : DonutState) (hF : FieldsEq s t) (hs : WF s) (ht : WF t) :
    reset_buffers s = reset_buffers t := by
  obtain ⟨h1, h2, h3, h4, h5, h6, h7, h8, h9, h10, h11, h12, h13, h14⟩ := hF
  rw [reset_of_WF s hs, reset_of_WF t ht]
  exact donutState_ext _ _
    ⟨h1, h2, h3, h4, h5, h6, h7, h8, h9, h10, h11, h12, h13, h14⟩
    (by rw [h1, h2]) (by rw [h1, h2])

theorem render_congr (fcos fsin : ℚ → ℚ) (s t : DonutState) (hF : FieldsEq s t)
    (hs : WF s) (ht : WF t) :
    render_frame fcos fsin s = render_frame fcos fsin t := by
  simp only [render_frame]
  rw [reset_congr s t hF hs ht]

theorem render_fieldsEq (fcos fsin : ℚ → ℚ) (s : DonutState) :
    FieldsEq (render_frame fcos fsin s) s := by
  simp only [render_frame]
  refine foldl_inv _ (fun t => FieldsEq t s) ?_ _ _ (reset_fieldsEq s)
  intro t θ ht
  refine foldl_inv _ (fun t2 => FieldsEq t2 s) ?_ _ _ ht
  intro t2 φ ht2
  exact fieldsEq_trans (submit_fieldsEq _ _) ht2

/-! ### The depth test and the tie-break -/

theorem zbuffer_bounds (s : DonutState) (x y : ℤ) (hWF : WF s)
    (hx0 : 0 ≤ x) (hxw : x < s.width) (hy0 : 0 ≤ y) (hyh : y < s.height) :
    y.toNat < s.zbuffer.length ∧ x.toNat < (s.zbuffer.getD y.toNat []).length := by
  obtain ⟨h1, h2, h3, h4⟩ := hWF
  have hy : y.toNat < s.zbuffer.length := by rw [h2]; omega
  refine ⟨hy, ?_⟩
  rw [h4 _ (getD_mem s.zbuffer y.toNat [] hy)]
  omega

theorem output_bounds (s : DonutState) (x y : ℤ) (hWF : WF s)
    (hx0 : 0 ≤ x) (hxw : x < s.width) (hy0 : 0 ≤ y) (hyh : y < s.height) :
    y.toNat < s.output.length ∧ x.toNat < (s.output.getD y.toNat []).length := by
  obtain ⟨h1, h2, h3, h4⟩ := hWF
  have hy : y.toNat < s.output.length := by rw [h1]; omega
  refine ⟨hy, ?_⟩
  rw [h3 _ (getD_mem s.output y.toNat [] hy)]
  omega

/-- A submission that passes the bounds and depth tests writes the selected
glyph and the new inverse depth at its cell. -/
theorem submit_writes (s : DonutState) (x y : ℤ) (d l : ℚ) (hWF : WF s)
    (hx0 : 0 ≤ x) (hxw : x < s.width) (hy0 : 0 ≤ y) (hyh : y < s.height)
    (hz : getCell s.zbuffer y.toNat x.toNat 0 < d) :
    getCell (submitPoint s (x, y, d, l)).output y.toNat x.toNat ' ' = selectGlyph s.chars l
    ∧ getCell (submitPoint s (x, y, d, l)).zbuffer y.toNat x.toNat 0 = d := by
  obtain ⟨hbz1, hbz2⟩ := zbuffer_bounds s x y hWF hx0 hxw hy0 hyh
  obtain ⟨hbo1, hbo2⟩ := output_bounds s x y hWF hx0 hxw hy0 hyh
  rw [submit_pos s x y d l ⟨hx0, hxw, hy0, hyh, hz⟩]
  exact ⟨getCell_setCell_self s.output y.toNat x.toNat _ ' ' hbo1 hbo2,
    getCell_setCell_self s.zbuffer y.toNat x.toNat _ 0 hbz1 hbz2⟩

/-- With the source's strict `ooz > zbuffer[yp][xp]` test, a second submission
with the same cell and the same inverse depth is always a no-op, whatever the
two luminances are. -/
theorem submit_eq_depth_noop (s : DonutState) (x y : ℤ) (d l1 l2 : ℚ) (hWF : WF s) :
    submitPoint (submitPoint s (x, y, d, l1)) (x, y, d, l2) = submitPoint s (x, y, d, l1) := by
  by_cases h : 0 ≤ x ∧ x < s.width ∧ 0 ≤ y ∧ y < s.height ∧
      getCell s.zbuffer y.toNat x.toNat 0 < d
  · rw [submit_pos s x y d l1 h]
    apply submit_neg
    intro hc
    obtain ⟨hb1, hb2⟩ := zbuffer_bounds s x y hWF h.1 h.2.1 h.2.2.1 h.2.2.2.1
    have hcell : getCell (setCell s.zbuffer y.toNat x.toNat d) y.toNat x.toNat 0 = d :=
      getCell_setCell_self s.zbuffer y.toNat x.toNat d 0 hb1 hb2
    have hlt : getCell (setCell s.zbuffer y.toNat x.toNat d) y.toNat x.toNat 0 < d :=
      hc.2.2.2.2
    rw [hcell] at hlt
    exact absurd hlt (lt_irrefl d)
  · rw [submit_neg s x y d l1 h]
    exact submit_neg s x y d l2 h

theorem submit_idem (t : DonutState) (p : ℤ × ℤ × ℚ × ℚ) (hWF : WF t) :
    submitPoint (submitPoint t p) p = submitPoint t p := by
  obtain ⟨x, y, d, l⟩ := p
  exact submit_eq_depth_noop t x y d l l hWF

/-! ### The depth buffer does not depend on the active ramp -/

theorem calculate_point_congr (fcos fsin : ℚ → ℚ) (t u : DonutState)
    (theta phi cosA sinA cosB sinB : ℚ)
    (h1 : t.width = u.width) (h2 : t.height = u.height) (h3 : t.R1 = u.R1)
    (h4 : t.R2 = u.R2) (h5 : t.K2 = u.K2) (h6 : t.K1 = u.K1) :
    calculate_point fcos fsin t theta phi cosA sinA cosB sinB
      = calculate_point fcos fsin u theta phi cosA sinA cosB sinB := by
  simp only [calculate_point]
  rw [h1, h2, h3, h4, h5, h6]

theorem submit_ZSim (t u : DonutState) (p : ℤ × ℤ × ℚ × ℚ) (h : ZSim t u) :
    ZSim (submitPoint t p) (submitPoint u p) := by
  obtain ⟨h1, h2, h3, h4, h5, h6, h7, h8, h9, h10, h11⟩ := h
  simp only [submitPoint, h1, h2, h11]
  split
  · exact ⟨rfl, rfl, h3, h4, h5, h6, h7, h8, h9, h10, rfl⟩
  · exact ⟨h1, h2, h3, h4, h5, h6, h7, h8, h9, h10, h11⟩

theorem reset_ZSim (t u : DonutState) (h : ZSim t u) :
    ZSim (reset_buffers t) (reset_buffers u) := by
  obtain ⟨h1, h2, h3, h4, h5, h6, h7, h8, h9, h10, h11⟩ := h
  rw [reset_buffers_eq, reset_buffers_eq]
  exact ⟨h1, h2, h3, h4, h5, h6, h7, h8, h9, h10, by rw [h1, h2, h11]⟩

theorem render_ZSim (fcos fsin : ℚ → ℚ) (t u : DonutState) (h : ZSim t u) :
    ZSim (render_frame fcos fsin t) (render_frame fcos fsin u) := by
  simp only [render_frame]
  have hr := reset_ZSim t u h
  obtain ⟨e1, e2, e3, e4, e5, e6, e7, e8, e9, e10, e11⟩ := hr
  rw [e7, e8, e9, e10]
  refine foldl_rel _ _ ZSim ?_ _ _ _ ⟨e1, e2, e3, e4, e5, e6, e7, e8, e9, e10, e11⟩
  intro t2 u2 θ h2
  refine foldl_rel _ _ ZSim ?_ _ _ _ h2
  intro t3 u3 φ h3
  rw [calculate_point_congr fcos fsin t3 u3 θ φ _ _ _ _
    h3.1 h3.2.1 h3.2.2.1 h3.2.2.2.1 h3.2.2.2.2.1 h3.2.2.2.2.2.1]
  exact submit_ZSim t3 u3 _ h3

/-! ### Collapsing a frame whose samples are all the same point -/

theorem foldl_collapse {ι : Type} (f : DonutState → ι → DonutState) (p : ℤ × ℤ × ℚ × ℚ)
    (P : DonutState → Prop)
    (hstep : ∀ t i, P t → f t i = submitPoint t p)
    (hP : ∀ t i, P t → P (f t i))
    (hWFP : ∀ t, P t → WF t) :
    ∀ (l : List ι) (t : DonutState), P t → l ≠ [] → l.foldl f t = submitPoint t p := by
  intro l
  induction l with
  | nil => intro t _ hne; exact absurd rfl hne
  | cons i m ih =>
    intro t ht _
    cases m with
    | nil => simpa using hstep t i ht
    | cons j m2 =>
      rw [List.foldl_cons, ih (f t i) (hP t i ht) (by simp), hstep t i ht]
      exact submit_idem t p (hWFP t ht)

/-- A frame rendered with constant trigonometric oracles submits the same
projected point for every sample, so it reduces to a single submission onto
the reset buffers (later equal-depth submissions fail the strict depth test). -/
theorem render_const (c1 c2 : ℚ) (s : DonutState) (hWF : WF s)
    (hθ : sweep s.theta_step (2 * mathPi) ≠ [])
    (hφ : sweep s.phi_step (2 * mathPi) ≠ []) :
    render_frame (fun _ => c1) (fun _ => c2) s
      = submitPoint (reset_buffers s)
          (calculate_point (fun _ => c1) (fun _ => c2) (reset_buffers s) 0 0 c1 c2 c1 c2) := by
  obtain ⟨e1, e2, e3, e4, e5, e6, e7, e8, e9, e10, e11, e12, e13, e14⟩ := reset_fieldsEq s
  simp only [render_frame]
  rw [e8, e9]
  refine foldl_collapse _
    (calculate_point (fun _ => c1) (fun _ => c2) (reset_buffers s) 0 0 c1 c2 c1 c2)
    (fun t => FieldsEq t (reset_buffers s) ∧ WF t) ?_ ?_ (fun t ht => ht.2) _ _
    ⟨fieldsEq_refl _, WF_reset s hWF⟩ hθ
  · intro t θ ht
    refine foldl_collapse _
      (calculate_point (fun _ => c1) (fun _ => c2) (reset_buffers s) 0 0 c1 c2 c1 c2)
      (fun t2 => FieldsEq t2 (reset_buffers s) ∧ WF t2) ?_ ?_ (fun t2 ht2 => ht2.2) _ _
      ht hφ
    · intro t2 φ ht2
      refine congrArg (submitPoint t2) ?_
      exact (calculate_point_congr (fun _ => c1) (fun _ => c2) t2 (reset_buffers s) θ φ
        c1 c2 c1 c2 ht2.1.1 ht2.1.2.1 ht2.1.2.2.1 ht2.1.2.2.2.1 ht2.1.2.2.2.2.1
        ht2.1.2.2.2.2.2.1).trans rfl
    · intro t2 φ ht2
      exact ⟨fieldsEq_trans (submit_fieldsEq _ _) ht2.1, WF_submit _ _ ht2.2⟩
  · intro t θ ht
    exact foldl_inv _ (fun t2 => FieldsEq t2 (reset_buffers s) ∧ WF t2)
      (fun t2 φ ht2 => ⟨fieldsEq_trans (submit_fieldsEq _ _) ht2.1, WF_submit _ _ ht2.2⟩)
      _ t ht

/-! ### The claims -/

/-- C1, counterexample: the claim says that of two equal-inverse-depth points
submitted to the same cell, the last one's glyph and depth remain. With the
strict `ooz > zbuffer[yp][xp]` test of line 135 the opposite happens: after
submitting `(0,0,1,1)` (glyph `@`) and then `(0,0,1,1/2)` (glyph `A`) to a
fresh 1×1 renderer, the cell holds the first glyph `@`, not the last one. -/
theorem C1_tie_break_counterexample :
    getCell (submitPoint (submitPoint (mkDonut 1 1) (0, 0, 1, 1)) (0, 0, 1, 1/2)).output
        0 0 ' ' = '@'
    ∧ selectGlyph (mkDonut 1 1).chars (1/2) = 'A'
    ∧ getCell (submitPoint (submitPoint (mkDonut 1 1) (0, 0, 1, 1)) (0, 0, 1, 1/2)).output
        0 0 ' ' ≠ selectGlyph (mkDonut 1 1).chars (1/2) := by
  with_unfolding_all decide

/-- C1 (amended): when two points with equal inverse depth are submitted to the
same cell, the first-submitted point's glyph and depth remain: the strict
depth test makes the second, equal-depth submission a no-op on the whole
state, for every starting state with well-formed buffers and both luminances. -/
theorem C1_tie_break_first_submitted_wins (s : DonutState) (x y : ℤ) (d l1 l2 : ℚ)
    (hWF : WF s) :
    submitPoint (submitPoint s (x, y, d, l1)) (x, y, d, l2) = submitPoint s (x, y, d, l1) :=
  submit_eq_depth_noop s x y d l1 l2 hWF

theorem C1_tie_break_first_submitted_wins_witness :
    WF (mkDonut 2 2)
    ∧ submitPoint (submitPoint (mkDonut 2 2) (0, 0, 1, 1)) (0, 0, 1, 1/2)
        = submitPoint (mkDonut 2 2) (0, 0, 1, 1) :=
  ⟨by decide, C1_tie_break_first_submitted_wins (mkDonut 2 2) 0 0 1 1 (1/2) (by decide)⟩

/-- C2, counterexample: the claim says the glyph index is
`round(luminance × (ramp_length − 1))` clamped. Line 140 computes
`int(luminance * (len(chars) - 1))`, which truncates instead of rounding: at
luminance `9/10` on the 24-character classic ramp the product is `20.7`, the
code writes the glyph at index 20 (`#`), while the spec's rounding selects
index 21 (`9`). -/
theorem C2_round_index_counterexample :
    getCell (submitPoint (mkDonut 1 1) (0, 0, 1, 9/10)).output 0 0 ' ' = '#'
    ∧ classicChars.getD (specRoundIndex classicChars (9/10)).toNat ' ' = '9'
    ∧ getCell (submitPoint (mkDonut 1 1) (0, 0, 1, 9/10)).output 0 0 ' '
        ≠ classicChars.getD (specRoundIndex classicChars (9/10)).toNat ' ' := by
  with_unfolding_all decide

/-- C2 (amended): for every point that passes the bounds and depth tests, the
glyph written is the active ramp's character at index
`int(luminance × (ramp_length − 1))` — truncation toward zero, not rounding —
clamped to the valid index range. -/
theorem C2_glyph_truncated_index (s : DonutState) (x y : ℤ) (d l : ℚ) (hWF : WF s)
    (hx0 : 0 ≤ x) (hxw : x < s.width) (hy0 : 0 ≤ y) (hyh : y < s.height)
    (hz : getCell s.zbuffer y.toNat x.toNat 0 < d) :
    getCell (submitPoint s (x, y, d, l)).output y.toNat x.toNat ' '
      = s.chars.getD (max 0 (min ((s.chars.length : ℤ) - 1)
          (pyInt (l * ((s.chars.length : ℚ) - 1))))).toNat ' ' :=
  (submit_writes s x y d l hWF hx0 hxw hy0 hyh hz).1

theorem C2_glyph_truncated_index_witness :
    WF (mkDonut 1 1)
    ∧ getCell (mkDonut 1 1).zbuffer 0 0 0 < 1
    ∧ getCell (submitPoint (mkDonut 1 1) (0, 0, 1, 9/10)).output 0 0 ' '
        = (mkDonut 1 1).chars.getD (max 0 (min (((mkDonut 1 1).chars.length : ℤ) - 1)
            (pyInt ((9/10 : ℚ) * (((mkDonut 1 1).chars.length : ℚ) - 1))))).toNat ' ' :=
  ⟨by decide, by with_unfolding_all decide,
    C2_glyph_truncated_index (mkDonut 1 1) 0 0 1 (9/10) (by decide) (by decide)
      (by decide) (by decide) (by decide) (by with_unfolding_all decide)⟩

/-- C3, counterexample: the claim says construction with non-positive viewport
dimensions fails with a configuration error. `__init__` performs no
validation: constructing with width 0 and height 3 completes normally and
yields a state (three empty rows), where the spec-modelled constructor
`init_spec` yields no state. -/
theorem C3_fail_fast_counterexample :
    init_spec 0 3 = none
    ∧ (mkDonut 0 3).width = 0 ∧ (mkDonut 0 3).height = 3
    ∧ (mkDonut 0 3).output = List.replicate 3 ([])
    ∧ (mkDonut 0 3).zbuffer = List.replicate 3 ([]) := by
  with_unfolding_all decide

/-- C3 (amended): construction never fails: for every viewport configuration,
including non-positive dimensions, `__init__` completes normally and returns
the state with the requested fields and `max 0 height × max 0 width` buffers
(the radii are fixed positive constants and cannot be misconfigured). -/
theorem C3_construction_total (w h : ℤ) :
    (mkDonut w h).width = w ∧ (mkDonut w h).height = h
    ∧ (mkDonut w h).output = List.replicate h.toNat (List.replicate w.toNat ' ')
    ∧ (mkDonut w h).zbuffer = List.replicate h.toNat (List.replicate w.toNat 0) :=
  ⟨rfl, rfl, rfl, rfl⟩

/-- C4: depth monotonicity. If two points with inverse depths `d1 < d2` are
submitted to the same in-bounds cell of a well-formed state whose cell depth
`d2` beats (as it does on freshly reset buffers for the sampler's positive
inverse depths), then in either submission order the cell ends up with the
glyph selected from `d2`'s luminance and with depth `d2`. -/
theorem C4_closer_depth_wins (s : DonutState) (x y : ℤ) (d1 d2 l1 l2 : ℚ) (hWF : WF s)
    (hx0 : 0 ≤ x) (hxw : x < s.width) (hy0 : 0 ≤ y) (hyh : y < s.height)
    (hz : getCell s.zbuffer y.toNat x.toNat 0 < d2) (hd : d1 < d2) :
    (getCell (submitPoint (submitPoint s (x, y, d1, l1)) (x, y, d2, l2)).output
        y.toNat x.toNat ' ' = selectGlyph s.chars l2
     ∧ getCell (submitPoint (submitPoint s (x, y, d1, l1)) (x, y, d2, l2)).zbuffer
        y.toNat x.toNat 0 = d2)
    ∧ (getCell (submitPoint (submitPoint s (x, y, d2, l2)) (x, y, d1, l1)).output
        y.toNat x.toNat ' ' = selectGlyph s.chars l2
     ∧ getCell (submitPoint (submitPoint s (x, y, d2, l2)) (x, y, d1, l1)).zbuffer
        y.toNat x.toNat 0 = d2) := by
  obtain ⟨hbz1, hbz2⟩ := zbuffer_bounds s x y hWF hx0 hxw hy0 hyh
  constructor
  · -- submit d1 first, then d2
    by_cases h1 : getCell s.zbuffer y.toNat x.toNat 0 < d1
    · have hT := submit_pos s x y d1 l1 ⟨hx0, hxw, hy0, hyh, h1⟩
      have hWT : WF (submitPoint s (x, y, d1, l1)) := WF_submit s _ hWF
      obtain ⟨f1, f2, _, _, _, _, _, _, _, f10, _, _, _, _⟩ :=
        submit_fieldsEq s (x, y, d1, l1)
      have hTcell : getCell (submitPoint s (x, y, d1, l1)).zbuffer y.toNat x.toNat 0 = d1 := by
        rw [hT]
        exact getCell_setCell_self s.zbuffer y.toNat x.toNat d1 0 hbz1 hbz2
      have hw := submit_writes (submitPoint s (x, y, d1, l1)) x y d2 l2 hWT
        hx0 (by rw [f1]; exact hxw) hy0 (by rw [f2]; exact hyh)
        (by rw [hTcell]; exact hd)
      rw [f10] at hw
      exact hw
    · rw [submit_neg s x y d1 l1 (fun hc => h1 hc.2.2.2.2)]
      exact submit_writes s x y d2 l2 hWF hx0 hxw hy0 hyh hz
  · -- submit d2 first, then d1
    have hT := submit_pos s x y d2 l2 ⟨hx0, hxw, hy0, hyh, hz⟩
    have hTcell : getCell (submitPoint s (x, y, d2, l2)).zbuffer y.toNat x.toNat 0 = d2 := by
      rw [hT]
      exact getCell_setCell_self s.zbuffer y.toNat x.toNat d2 0 hbz1 hbz2
    rw [submit_neg (submitPoint s (x, y, d2, l2)) x y d1 l1 (fun hc => by
      have hlt := hc.2.2.2.2
      rw [hTcell] at hlt
      exact absurd (hlt.trans hd) (lt_irrefl d2))]
    exact submit_writes s x y d2 l2 hWF hx0 hxw hy0 hyh hz

theorem C4_closer_depth_wins_witness :
    WF (mkDonut 2 2)
    ∧ getCell (mkDonut 2 2).zbuffer 0 0 0 < 1
    ∧ (1/2 : ℚ) < 1
    ∧ ((getCell (submitPoint (submitPoint (mkDonut 2 2) (0, 0, 1/2, 1/4)) (0, 0, 1, 3/4)).output
          0 0 ' ' = selectGlyph (mkDonut 2 2).chars (3/4)
      ∧ getCell (submitPoint (submitPoint (mkDonut 2 2) (0, 0, 1/2, 1/4)) (0, 0, 1, 3/4)).zbuffer
          0 0 0 = 1)
     ∧ (getCell (submitPoint (submitPoint (mkDonut 2 2) (0, 0, 1, 3/4)) (0, 0, 1/2, 1/4)).output
          0 0 ' ' = selectGlyph (mkDonut 2 2).chars (3/4)
      ∧ getCell (submitPoint (submitPoint (mkDonut 2 2) (0, 0, 1, 3/4)) (0, 0, 1/2, 1/4)).zbuffer
          0 0 0 = 1)) :=
  ⟨by decide, by with_unfolding_all decide, by with_unfolding_all decide,
    C4_closer_depth_wins (mkDonut 2 2) 0 0 (1/2) 1 (1/4) (3/4) (by decide) (by decide)
      (by decide) (by decide) (by decide) (by with_unfolding_all decide)
      (by with_unfolding_all decide)⟩

/-- C5: for every real luminance (negative and above-one included) and every
non-empty ramp, the clamped index of lines 140-141 is a valid index into the
ramp, so the access `self.chars[char_index]` is never out of range. -/
theorem C5_ramp_index_always_valid (chars : List Char) (luminance : ℚ)
    (h : 0 < chars.length) :
    0 ≤ rampIndex chars luminance
    ∧ rampIndex chars luminance < (chars.length : ℤ)
    ∧ (rampIndex chars luminance).toNat < chars.length := by
  unfold rampIndex
  have h1 : (0 : ℤ) ≤ max 0 (min ((chars.length : ℤ) - 1)
      (pyInt (luminance * ((chars.length : ℚ) - 1)))) := le_max_left _ _
  have h2 : max 0 (min ((chars.length : ℤ) - 1)
      (pyInt (luminance * ((chars.length : ℚ) - 1)))) ≤ (chars.length : ℤ) - 1 :=
    max_le (by omega) (min_le_left _ _)
  exact ⟨h1, by omega, by omega⟩

theorem C5_ramp_index_always_valid_witness :
    0 < classicChars.length
    ∧ (0 ≤ rampIndex classicChars (-7/2)
      ∧ rampIndex classicChars (-7/2) < (classicChars.length : ℤ)
      ∧ (rampIndex classicChars (-7/2)).toNat < classicChars.length) :=
  ⟨by decide, C5_ramp_index_always_valid classicChars (-7/2) (by decide)⟩

/-- C6: a projected point whose screen coordinates fall outside
`[0, width) × [0, height)` leaves the whole state — in particular both frame
buffers — unchanged (the embedding of the guarded write is total, matching the
short-circuit bounds check of line 134 that prevents any indexing error). -/
theorem C6_out_of_bounds_noop (s : DonutState) (x y : ℤ) (d l : ℚ)
    (h : x < 0 ∨ s.width ≤ x ∨ y < 0 ∨ s.height ≤ y) :
    submitPoint s (x, y, d, l) = s := by
  apply submit_neg
  intro hc
  obtain ⟨c1, c2, c3, c4, _⟩ := hc
  rcases h with h | h | h | h <;> omega

theorem C6_out_of_bounds_noop_witness :
    ((5 : ℤ) < 0 ∨ (mkDonut 2 2).width ≤ 5 ∨ (0 : ℤ) < 0 ∨ (mkDonut 2 2).height ≤ 0)
    ∧ submitPoint (mkDonut 2 2) (5, 0, 1, 1) = mkDonut 2 2 :=
  ⟨by decide, C6_out_of_bounds_noop (mkDonut 2 2) 5 0 1 1 (by decide)⟩

/-- C7: determinism. Two renderer states that agree on every field except the
frame buffers (same configuration, same rotation angles, same ramp), both with
well-formed buffers, render identical glyph grids: the output is a function of
configuration, angles and ramp only. -/
theorem C7_render_deterministic (fcos fsin : ℚ → ℚ) (s t : DonutState)
    (hF : FieldsEq s t) (hs : WF s) (ht : WF t) :
    (render_frame fcos fsin s).output = (render_frame fcos fsin t).output := by
  rw [render_congr fcos fsin s t hF hs ht]

theorem C7_render_deterministic_witness :
    FieldsEq (mkDonut 2 2) (submitPoint (mkDonut 2 2) (0, 0, 1, 1))
    ∧ WF (mkDonut 2 2)
    ∧ WF (submitPoint (mkDonut 2 2) (0, 0, 1, 1))
    ∧ (render_frame (fun _ => 1) (fun _ => 0) (mkDonut 2 2)).output
        = (render_frame (fun _ => 1) (fun _ => 0)
            (submitPoint (mkDonut 2 2) (0, 0, 1, 1))).output :=
  ⟨by with_unfolding_all decide, by decide, by with_unfolding_all decide,
    C7_render_deterministic (fun _ => 1) (fun _ => 0) (mkDonut 2 2)
      (submitPoint (mkDonut 2 2) (0, 0, 1, 1)) (by with_unfolding_all decide)
      (by decide) (by with_unfolding_all decide)⟩

/-- C8: after any sequence of submitted points starting from construction,
`reset_buffers` restores the glyph grid to all-blank and the depth grid to
all-zero — exactly the buffers produced by construction — and resetting again
changes nothing (idempotence). -/
theorem C8_reset_restores_construction_state (w h : ℤ) (ps : List (ℤ × ℤ × ℚ × ℚ)) :
    (reset_buffers (ps.foldl submitPoint (mkDonut w h))).output = (mkDonut w h).output
    ∧ (reset_buffers (ps.foldl submitPoint (mkDonut w h))).zbuffer = (mkDonut w h).zbuffer
    ∧ reset_buffers (reset_buffers (ps.foldl submitPoint (mkDonut w h)))
        = reset_buffers (ps.foldl submitPoint (mkDonut w h)) := by
  have hWFt : WF (ps.foldl submitPoint (mkDonut w h)) :=
    foldl_inv submitPoint WF (fun u p hu => WF_submit u p hu) ps (mkDonut w h) (mkDonut_WF w h)
  obtain ⟨f1, f2, _, _, _, _, _, _, _, _, _, _, _, _⟩ :=
    foldl_inv submitPoint (fun u => FieldsEq u (mkDonut w h))
      (fun u p hu => fieldsEq_trans (submit_fieldsEq u p) hu) ps (mkDonut w h)
      (fieldsEq_refl (mkDonut w h))
  have hre := reset_of_WF _ hWFt
  refine ⟨by rw [hre, f1, f2]; rfl, by rw [hre, f1, f2]; rfl, ?_⟩
  have hre2 := reset_of_WF _ (WF_reset _ hWFt)
  rw [hre2]
  refine donutState_ext _ _
    ⟨rfl, rfl, rfl, rfl, rfl, rfl, rfl, rfl, rfl, rfl, rfl, rfl, rfl, rfl⟩ ?_ ?_ <;>
    rw [hre]

/-- C9, counterexample: the claim says switching between the classic and the
minimal ramps never changes which cells are non-blank. It does: a cell whose
winning sample has luminance `13/125` receives the visible glyph at index 2
under the 24-character classic ramp but the blank glyph at index 0 under the
8-character minimal ramp. The frame below (rendered with constant
trigonometric oracles, so that every sample projects to the same point) has
cell (3, 8) non-blank under `classic` and blank under `minimal`. -/
theorem C9_nonblank_set_counterexample :
    getCell (render_frame (fun _ => 1) (fun _ => -1/10)
        (set_style (mkDonut 10 5) ("classic"))).output 3 8 ' ' ≠ ' '
    ∧ getCell (render_frame (fun _ => 1) (fun _ => -1/10)
        (set_style (mkDonut 10 5) ("minimal"))).output 3 8 ' ' = ' ' := by
  constructor <;>
  · rw [render_const 1 (-1/10) _ (by decide) (by with_unfolding_all decide)
      (by with_unfolding_all decide)]
    with_unfolding_all decide

/-- C9 (amended): re-rendering the identical frame with a different active
ramp leaves the depth grid — and hence the set of depth-test winners —
unchanged; only the glyphs can differ, and a written cell may show the blank
index-0 glyph under one ramp and a visible glyph under the other. -/
theorem C9_ramp_change_preserves_depth_grid (fcos fsin : ℚ → ℚ) (s : DonutState) :
    (render_frame fcos fsin (set_style s ("classic"))).zbuffer
      = (render_frame fcos fsin (set_style s ("minimal"))).zbuffer := by
  have h : ZSim (set_style s ("classic")) (set_style s ("minimal")) := by
    have h1 : set_style s ("classic") = { s with chars := classicChars } := rfl
    have h2 : set_style s ("minimal") = { s with chars := minimalChars } := rfl
    rw [h1, h2]
    exact ⟨rfl, rfl, rfl, rfl, rfl, rfl, rfl, rfl, rfl, rfl, rfl⟩
  exact (render_ZSim fcos fsin _ _ h).2.2.2.2.2.2.2.2.2.2

/-- C10: rendering a frame mutates only the two frame buffers: the
configuration fields, the rotation angles and the active ramp are unchanged. -/
theorem C10_render_mutates_only_buffers (fcos fsin : ℚ → ℚ) (s : DonutState) :
    (render_frame fcos fsin s).width = s.width
    ∧ (render_frame fcos fsin s).height = s.height
    ∧ (render_frame fcos fsin s).R1 = s.R1
    ∧ (render_frame fcos fsin s).R2 = s.R2
    ∧ (render_frame fcos fsin s).K2 = s.K2
    ∧ (render_frame fcos fsin s).K1 = s.K1
    ∧ (render_frame fcos fsin s).A = s.A
    ∧ (render_frame fcos fsin s).B = s.B
    ∧ (render_frame fcos fsin s).chars = s.chars := by
  obtain ⟨h1, h2, h3, h4, h5, h6, h7, h8, h9, h10, h11, h12, h13, h14⟩ :=
    render_fieldsEq fcos fsin s
  exact ⟨h1, h2, h3, h4, h5, h6, h11, h12, h10⟩

